import Mathlib

/-!
Verification of the flake8_setka_linter plugin (a flake8 rule engine that
walks a Python AST, extracts ORM-style field declarations, and evaluates a
registry of naming/typing rules against each one).

Python strings are modelled as lists of characters (`PyStr`), Python
exceptions as an explicit error type threaded through `Except` / an error
component of the pipeline result.  The plugin's `run` generator is modelled
as the pair of the list of tuples it yields before finishing or raising and
the exception (if any) that terminates it — this is exactly what a consumer
of the generator observes.
-/

/-- Python `str`, modelled as its list of characters. -/
abbrev PyStr := List Char

/-- The Python exceptions the plugin can raise.
`valueError` is raised by `get_full_name` on an unsupported node kind (it
carries the node's class name, standing in for the interpolated
`f"Unexpected node type: {type(node)}"` message).
`attributeError` is `AttributeError: 'str' object has no attribute
'startwith'`, raised by the STK005 assertion, which calls the nonexistent
string method `startwith`. -/
inductive PyErr where
  | valueError (typeName : PyStr)
  | attributeError
deriving DecidableEq, Repr

/-- The fragment of Python's `ast` node language the plugin can meet.
Field order inside each constructor follows the `_fields` order of the
corresponding `ast` class, because `ast.iter_child_nodes` (and hence
`ast.walk`) enumerates children in that order.

`lineno`/`colOffset` are carried only on `Assign`: the plugin reads
`node.lineno` / `node.col_offset` on assignment statements only.  The
expression-context children (`ast.Load`/`ast.Store`) that the real parser
attaches to `Name`/`Attribute`/`Subscript`/`Tuple` nodes are omitted: they
are childless and are never `Assign` nodes, so they change neither which
`Assign` nodes `ast.walk` yields nor their relative order. -/
inductive Node where
  | Module (body : List Node)
  | ClassDef (bases : List Node) (keywords : List Node) (body : List Node)
      (decorators : List Node)
  | Assign (targets : List Node) (value : Node) (lineno : Nat) (colOffset : Nat)
  | Name (id : PyStr)
  | Attribute (value : Node) (attr : PyStr)
  | Call (func : Node) (args : List Node) (keywords : List Node)
  | Keyword (value : Node)
  | Constant
  | TupleNode (elts : List Node)
  | Subscript (value : Node) (slice : Node)

/-- The Python class name of a node, as it appears in the `ValueError`
message of `get_full_name`. -/
def pyTypeName : Node → PyStr
  | .Module _ => "Module".toList
  | .ClassDef _ _ _ _ => "ClassDef".toList
  | .Assign _ _ _ _ => "Assign".toList
  | .Name _ => "Name".toList
  | .Attribute _ _ => "Attribute".toList
  | .Call _ _ _ => "Call".toList
  | .Keyword _ => "keyword".toList
  | .Constant => "Constant".toList
  | .TupleNode _ => "Tuple".toList
  | .Subscript _ _ => "Subscript".toList

/-- `ast.iter_child_nodes`: the direct children of a node, in `_fields`
order. -/
def children : Node → List Node
  | .Module body => body
  | .ClassDef bases kws body decs => bases ++ kws ++ body ++ decs
  | .Assign targets value _ _ => targets ++ [value]
  | .Name _ => []
  | .Attribute v _ => [v]
  | .Call f args kws => f :: (args ++ kws)
  | .Keyword v => [v]
  | .Constant => []
  | .TupleNode elts => elts
  | .Subscript v s => [v, s]

mutual

/-- The number of nodes in a tree (used as fuel for the traversal). -/
def nodeSize : Node → Nat
  | .Module body => 1 + listSize body
  | .ClassDef bases kws body decs =>
      1 + (listSize bases + (listSize kws + (listSize body + listSize decs)))
  | .Assign targets value _ _ => 1 + (listSize targets + nodeSize value)
  | .Name _ => 1
  | .Attribute v _ => 1 + nodeSize v
  | .Call f args kws => 1 + (nodeSize f + (listSize args + listSize kws))
  | .Keyword v => 1 + nodeSize v
  | .Constant => 1
  | .TupleNode elts => 1 + listSize elts
  | .Subscript v s => 1 + (nodeSize v + nodeSize s)

/-- Total number of nodes in a list of trees. -/
def listSize : List Node → Nat
  | [] => 0
  | n :: ns => nodeSize n + listSize ns

end

/-- One step of `ast.walk`'s breadth-first queue loop, with explicit fuel.
CPython's `ast.walk` is

    todo = deque([node])
    while todo:
        node = todo.popleft()
        todo.extend(ast.iter_child_nodes(node))
        yield node

Each iteration consumes exactly one node of the forest held in the queue, so
the total node count of the initial queue is exactly enough fuel
(`walkFuel_fuel_irrel` below), and the out-of-fuel branch is never taken
when `walkFuel` is applied through `walk`. -/
def walkFuel : Nat → List Node → List Node
  | _, [] => []
  | 0, _ :: _ => []
  | Nat.succ f, n :: todo => n :: walkFuel f (todo ++ children n)

/-- `ast.walk node`: every descendant of `node` (including `node` itself) in
breadth-first order. -/
def walk (t : Node) : List Node := walkFuel (nodeSize t) [t]

/-- Python `s.startswith(pre)`. -/
def pyStartswith : PyStr → PyStr → Bool
  | _, [] => true
  | [], _ :: _ => false
  | c :: cs, p :: ps => c == p && pyStartswith cs ps

/-- Python `s.endswith(suf)`. -/
def pyEndswith (s suf : PyStr) : Bool := pyStartswith s.reverse suf.reverse

/-- Python `template.format(arg)` for the plugin's message templates, which
contain exactly one `\x7b\x7d` slot: the slot is replaced by `arg`. -/
def formatOne : PyStr → PyStr → PyStr
  | [], _ => []
  | '{' :: '}' :: rest, arg => arg ++ rest
  | c :: rest, arg => c :: formatOne rest arg

/-- Python `full_name.split(".")`: split on every dot, keeping empty
segments; the result is never the empty list. -/
def splitDot : PyStr → List PyStr
  | [] => [[]]
  | c :: cs =>
    if c = '.' then [] :: splitDot cs
    else
      match splitDot cs with
      | [] => [[c]]
      | s :: rest => (c :: s) :: rest

/-- `Plugin.get_full_name`: recursively assemble the dotted name of a type
expression.  Mirrors the source:

    if isinstance(node, ast.Name): return node.id
    elif isinstance(node, ast.Attribute):
        value = self.get_full_name(node.value)
        return "\x7b\x7d.\x7b\x7d".format(value, node.attr) if value else node.attr
    elif isinstance(node, ast.Call): return self.get_full_name(node.func)
    raise ValueError(f"Unexpected node type: \x7btype(node)\x7d")
-/
def get_full_name : Node → Except PyErr PyStr
  | .Name id => .ok id
  | .Attribute v attr =>
    match get_full_name v with
    | .ok value => .ok (if value = [] then attr else value ++ '.' :: attr)
    | .error e => .error e
  | .Call f _ _ => get_full_name f
  | n => .error (.valueError (pyTypeName n))

/-- `Plugin.get_base_type_name`: `self.get_full_name(node).split(".")[-1]`.
`split` never returns an empty list (`splitDot_ne_nil`), so Python's `[-1]`
is total here; `getLastD` with an arbitrary default models it. -/
def get_base_type_name (n : Node) : Except PyErr PyStr :=
  match get_full_name n with
  | .ok full => .ok ((splitDot full).getLastD [])
  | .error e => .error e

/-- The `FieldInfo` TypedDict. -/
structure FieldInfo where
  name : PyStr
  column_type_node : Node
  base_type : PyStr
  full_type : PyStr

/-- The `Rule` TypedDict.  `condition` is a total Python predicate; an
`assertion` may raise (STK005's does), hence `Except`. -/
structure Rule where
  error_code : PyStr
  condition : FieldInfo → Bool
  assertion : FieldInfo → Except PyErr Bool
  message : PyStr

/-- The tag yielded as the fourth tuple component: `type(self)`, i.e. the
`Plugin` class object itself, identical for every diagnostic. -/
inductive Origin where
  | pluginClass
deriving DecidableEq, Repr

/-- One yielded tuple `(node.lineno, node.col_offset, text, type(self))`. -/
structure Diag where
  line : Nat
  col : Nat
  text : PyStr
  origin : Origin
deriving DecidableEq, Repr

/-- The `rules` list built in `Plugin.__init__`, in registration order. -/
def stk001 : Rule where
  error_code := "STK001".toList
  condition := fun f => f.base_type == "DateTime".toList
  assertion := fun f =>
    .ok (pyEndswith f.name ("_at".toList) || pyEndswith f.name ("_dt".toList))
  message := "Поле '\x7b\x7d' имеет тип DateTime, должно оканчиваться на '_at' или '_dt'".toList

def stk002 : Rule where
  error_code := "STK002".toList
  condition := fun f => f.base_type == "Date".toList
  assertion := fun f => .ok (pyEndswith f.name ("_date".toList))
  message := "Поле '\x7b\x7d' имеет тип Date, должно оканчиваться на '_date'".toList

def stk003 : Rule where
  error_code := "STK003".toList
  condition := fun f => f.name == "type".toList
  assertion := fun f => .ok (f.full_type == "sqlalchemy.Enum".toList)
  message := "Поле '\x7b\x7d' должно быть определено как Enum".toList

def stk004 : Rule where
  error_code := "STK004".toList
  condition := fun f =>
    f.name == "id".toList || pyEndswith f.name ("_id".toList)
      || pyStartswith f.name ("id_".toList)
  assertion := fun f => .ok (f.full_type == "sqlalchemy.UUID".toList)
  message := "Поле '\x7b\x7d' должно использовать UUID вместо Integer".toList

/-- STK005.  The source's assertion is

    lambda f: not (f.get("name").startwith('is_') or f.get("name").startwith('is_'))

`str` has no method `startwith` (a misspelling of `startswith`), so
evaluating the assertion raises `AttributeError` on the first operand,
before `not` or `or` are ever applied: the assertion never returns a value.
The message is the source's verbatim (copy-pasted from STK004). -/
def stk005 : Rule where
  error_code := "STK005".toList
  condition := fun f => f.base_type == "bool".toList
  assertion := fun _ => .error .attributeError
  message := "Поле '\x7b\x7d' должно использовать UUID вместо Integer".toList

/-- `self.rules`, in registration order. -/
def rules : List Rule := [stk001, stk002, stk003, stk004, stk005]

/-- The yielded tuple for a fired rule:
`(node.lineno, node.col_offset, "\x7b\x7d: ".format(error_code) + message.format(name), type(self))`. -/
def mkDiag (l c : Nat) (r : Rule) (fi : FieldInfo) : Diag :=
  ⟨l, c, r.error_code ++ ": ".toList ++ formatOne r.message fi.name, .pluginClass⟩

/-- Whether a yielded tuple's text begins with the given error code (the code
is the text's first eight characters up to `": "`, so a six-character code
prefix identifies the rule that produced it). -/
def hasCode (code : PyStr) (d : Diag) : Bool := pyStartswith d.text code

/-- The inner rule loop of `Plugin.run` applied to one `field_info`:
the tuples yielded and, if an assertion raises, the exception (which aborts
the generator; later rules are not evaluated). -/
def evalRulesAux (l c : Nat) (fi : FieldInfo) : List Rule → List Diag × Option PyErr
  | [] => ([], none)
  | r :: rs =>
    if r.condition fi then
      match r.assertion fi with
      | .error e => ([], some e)
      | .ok b =>
        if b then evalRulesAux l c fi rs
        else
          ((mkDiag l c r fi) :: (evalRulesAux l c fi rs).1, (evalRulesAux l c fi rs).2)
    else evalRulesAux l c fi rs

/-- The full registry evaluated against one field. -/
def evalRules (fi : FieldInfo) (l c : Nat) : List Diag × Option PyErr :=
  evalRulesAux l c fi rules

/-- `field_info` as built in `Plugin.run` for the target named `name` of an
assignment whose call's first positional argument is `ct`:
`base_type` is computed first, then `full_type`; a `ValueError` from
resolution propagates (there is no handler in `run`). -/
def mkFieldInfo (name : PyStr) (ct : Node) : Except PyErr FieldInfo :=
  match get_base_type_name ct with
  | .error e => .error e
  | .ok base =>
    match get_full_name ct with
    | .error e => .error e
    | .ok full => .ok ⟨name, ct, base, full⟩

/-- What one stretch of the `run` generator produces: the `field_info`
dictionaries it builds, the tuples it yields, and the exception (if any)
that aborts it. -/
abbrev RunOut := List FieldInfo × List Diag × Option PyErr

/-- Sequential composition of generator stretches: if the first stretch
raises, the second never runs. -/
def seqOut (a b : RunOut) : RunOut :=
  match a with
  | (fs, ds, some e) => (fs, ds, some e)
  | (fs, ds, none) => (fs ++ b.1, ds ++ b.2.1, b.2.2)

/-- The body of the `for target in node.targets` loop for one target:
non-`Name` targets are skipped (`continue`); for a `Name` target the field
is built (resolution failure raises) and the registry is evaluated. -/
def processTarget (ct : Node) (l c : Nat) : Node → RunOut
  | .Name id =>
    match mkFieldInfo id ct with
    | .error e => ([], [], some e)
    | .ok fi => ([fi], (evalRules fi l c).1, (evalRules fi l c).2)
  | _ => ([], [], none)

/-- The whole `for target in node.targets` loop. -/
def processTargets (ct : Node) (l c : Nat) : List Node → RunOut
  | [] => ([], [], none)
  | t :: ts => seqOut (processTarget ct l c t) (processTargets ct l c ts)

/-- The body of the outer `for node in ast.walk(self.tree)` loop for one
walked node: anything but an assignment whose value is a call with at least
one positional argument is skipped. -/
def processNode : Node → RunOut
  | .Assign targets (.Call _func (a :: _args) _kws) l c =>
      processTargets a l c targets
  | _ => ([], [], none)

/-- The outer loop over a list of walked nodes. -/
def runNodes : List Node → RunOut
  | [] => ([], [], none)
  | n :: ns => seqOut (processNode n) (runNodes ns)

/-- Everything `Plugin.run` does on a tree: the fields built, the tuples
yielded, and the exception (if any) observed by the generator's consumer. -/
def analyze (t : Node) : RunOut := runNodes (walk t)

/-- The `Plugin` instance: `__init__` stores the tree and the filename (and
the `rules` list, which depends on neither). -/
structure Plugin where
  tree : Node
  filename : PyStr

/-- The observable behaviour of the `run` generator: the yielded tuples in
order, then (optionally) the exception that ends the iteration. -/
def Plugin.run (p : Plugin) : List Diag × Option PyErr :=
  ((analyze p.tree).2.1, (analyze p.tree).2.2)

/-! ### Candidate selection -/

/-- Whether a target node is a simple name binding (`isinstance(target, ast.Name)`). -/
def isNameNode : Node → Bool
  | .Name _ => true
  | _ => false

/-- The field a target contributes once the shared first positional argument
`ct` has resolved to base name `bt` and full name `ft`: one `FieldInfo` per
`Name` target, nothing for any other target kind. -/
def nameField (ct : Node) (bt ft : PyStr) : Node → Option FieldInfo
  | .Name id => some ⟨id, ct, bt, ft⟩
  | _ => none

/-! ### Emission order -/

/-- A rule fires on a field: its condition holds and its assertion comes
back `false` (spec §4.4; an assertion that raises fires nothing — it aborts
the run instead). -/
def ruleFires (r : Rule) (fi : FieldInfo) : Bool :=
  r.condition fi && match r.assertion fi with
    | .ok b => !b
    | .error _ => false

/-- Modelled from the spec's evaluator contract (§4.4): the diagnostics one
target contributes — for a `Name` target whose shared first positional
argument resolves, one diagnostic per firing rule in registration order;
nothing otherwise. -/
def specEmitTarget (ct : Node) (l c : Nat) : Node → List Diag
  | .Name id =>
    match mkFieldInfo id ct with
    | .ok fi => (rules.filter (fun r => ruleFires r fi)).map (fun r => mkDiag l c r fi)
    | .error _ => []
  | _ => []

/-- Modelled from the spec's emitter contract (§4.5): the diagnostics one
declaration contributes, targets in order, rules in registration order. -/
def specEmitNode : Node → List Diag
  | .Assign targets (.Call _func (a :: _args) _kws) l c =>
      targets.flatMap (specEmitTarget a l c)
  | _ => []

/-- Modelled from the spec's emitter contract (§4.5), with the outer
traversal order corrected from "depth-first, pre-order (document order)" to
the breadth-first order `ast.walk` actually produces: declarations in
`walk` order, targets in target order, rules in registration order. -/
def specEmit (t : Node) : List Diag := (walk t).flatMap specEmitNode

/-! ### The resolver and the base name -/

/-- An identifier as the parser produces it: non-empty and dot-free. -/
def wfIdent (s : PyStr) : Bool := !s.isEmpty && !s.contains '.'

/-- All identifiers a resolution of this node can visit are well-formed
(`Name` ids, `Attribute` attrs and the callee chain; other variants make
resolution fail, so nothing is required of them). -/
def wfNames : Node → Bool
  | .Name id => wfIdent id
  | .Attribute v attr => wfNames v && wfIdent attr
  | .Call f _ _ => wfNames f
  | _ => true

/-- The spec's description of the base name: the qualified name split on
`.`, last non-empty segment. -/
def lastNonEmptySegment (s : PyStr) : PyStr :=
  ((splitDot s).filter (fun seg => !seg.isEmpty)).getLastD []

/-! ### Document order (for comparison with the walk order) -/

/-- Modelled from the spec (§4.2): "depth-first, pre-order (document
order)" — the standard pre-order traversal, with the node count as fuel
(the recursion depth never exceeds the node count, so the fuel always
suffices on the trees it is applied to). -/
def dfsFuel : Nat → Node → List Node
  | 0, _ => []
  | Nat.succ f, n => n :: (children n).flatMap (dfsFuel f)

/-- Depth-first pre-order (document order) traversal of a tree. -/
def dfsPre (t : Node) : List Node := dfsFuel (nodeSize t) t

/-- The `lineno`s of the assignment statements in a node list, in order. -/
def assignLines (ns : List Node) : List Nat :=
  ns.filterMap fun n =>
    match n with
    | .Assign _ _ l _ => some l
    | _ => none

/-- The candidate-selection predicate exactly as claim C5 words it: a
single-target assignment whose right-hand side is a call with at least one
positional argument and whose single target is a simple name binding. -/
def singleNameTargetCall : Node → Bool
  | .Assign [t] (.Call _func (_a :: _args) _kws) _ _ => isNameNode t
  | _ => false

/-! ### Concrete input trees (as `ast.parse` would build them: `lineno`
1-based, `col_offset` 0-based) -/

/-- `flag = Column(bool)` at line 1, column 0. -/
def exBoolField : Node :=
  .Module [.Assign [.Name ("flag".toList)]
    (.Call (.Name ("Column".toList)) [.Name ("bool".toList)] []) 1 0]

/-- `created = Column(DateTime())` alone at line 1, column 0. -/
def exCreated : Node :=
  .Module [.Assign [.Name ("created".toList)]
    (.Call (.Name ("Column".toList)) [.Call (.Name ("DateTime".toList)) [] []] []) 1 0]

/-- `x = Column(123)` (line 1) followed by `created = Column(DateTime())`
(line 2): the first candidate's type expression is a numeric literal, an
unsupported node shape for the resolver. -/
def exMalformed : Node :=
  .Module [
    .Assign [.Name ("x".toList)]
      (.Call (.Name ("Column".toList)) [.Constant] []) 1 0,
    .Assign [.Name ("created".toList)]
      (.Call (.Name ("Column".toList)) [.Call (.Name ("DateTime".toList)) [] []] []) 2 0]

/-- A class-body field that precedes a top-level field in document order:

    class M:                           # line 1
        created = Column(DateTime())   # line 2, col 4
    updated = Column(DateTime())       # line 3, col 0
-/
def exNested : Node :=
  .Module [
    .ClassDef [] [] [.Assign [.Name ("created".toList)]
      (.Call (.Name ("Column".toList)) [.Call (.Name ("DateTime".toList)) [] []] []) 2 4] [],
    .Assign [.Name ("updated".toList)]
      (.Call (.Name ("Column".toList)) [.Call (.Name ("DateTime".toList)) [] []] []) 3 0]

/-- `a = b = Column(DateTime())`: one assignment, two `Name` targets. -/
def exChained : Node :=
  .Module [.Assign [.Name ("a".toList), .Name ("b".toList)]
    (.Call (.Name ("Column".toList)) [.Call (.Name ("DateTime".toList)) [] []] []) 1 0]

/-- `a = b = Column(bool)`: one assignment, two `Name` targets, bool-typed. -/
def exChainedBool : Node :=
  .Module [.Assign [.Name ("a".toList), .Name ("b".toList)]
    (.Call (.Name ("Column".toList)) [.Name ("bool".toList)] []) 1 0]

/-- The `field_info` the run builds for `flag = Column(bool)`. -/
def fiFlag : FieldInfo :=
  ⟨"flag".toList, .Name ("bool".toList), "bool".toList, "bool".toList⟩

/-- The `field_info` the run builds for `created = Column(DateTime())`. -/
def fiCreated : FieldInfo :=
  ⟨"created".toList, .Call (.Name ("DateTime".toList)) [] [],
    "DateTime".toList, "DateTime".toList⟩

/-! ### Properties -/

theorem listSize_append (a b : List Node) :
    listSize (a ++ b) = listSize a + listSize b := by
  induction a with
  | nil => simp [listSize]
  | cons n ns ih => simp [listSize, ih, Nat.add_assoc]

theorem nodeSize_pos (n : Node) : 1 ≤ nodeSize n := by
  cases n <;> simp [nodeSize]

theorem nodeSize_eq_children (n : Node) :
    nodeSize n = 1 + listSize (children n) := by
  cases n <;> simp only [nodeSize, children, listSize, listSize_append] <;> omega

theorem walkFuel_fuel_irrel :
    ∀ (f g : Nat) (q : List Node), listSize q ≤ f → listSize q ≤ g →
      walkFuel f q = walkFuel g q := by
  intro f
  induction f with
  | zero =>
    intro g q hf _
    cases q with
    | nil => cases g <;> rfl
    | cons n todo =>
      exfalso
      have := nodeSize_pos n
      simp [listSize] at hf
      omega
  | succ f ih =>
    intro g q hf hg
    cases q with
    | nil => cases g <;> rfl
    | cons n todo =>
      have hn := nodeSize_pos n
      have hsz : listSize (n :: todo) = 1 + listSize (todo ++ children n) := by
        simp [listSize, listSize_append, nodeSize_eq_children n]
        omega
      cases g with
      | zero => exfalso; simp [listSize] at hg; omega
      | succ g =>
        simp only [walkFuel]
        rw [ih g (todo ++ children n) (by omega) (by omega)]

theorem walk_eq_bigger_fuel (t : Node) (f : Nat) (h : nodeSize t ≤ f) :
    walkFuel f [t] = walk t := by
  unfold walk
  exact walkFuel_fuel_irrel f (nodeSize t) [t]
    (by simp [listSize]; omega) (by simp [listSize])

theorem splitDot_ne_nil (s : PyStr) : splitDot s ≠ [] := by
  cases s with
  | nil => simp [splitDot]
  | cons c cs =>
    simp only [splitDot]
    split
    · simp
    · split <;> simp

/-! ### Small evaluation lemmas for the registry's rules -/

theorem stk001_condition (fi : FieldInfo) :
    stk001.condition fi = (fi.base_type == "DateTime".toList) := rfl

theorem stk001_assertion (fi : FieldInfo) :
    stk001.assertion fi
      = .ok (pyEndswith fi.name ("_at".toList) || pyEndswith fi.name ("_dt".toList)) := rfl

theorem stk002_condition (fi : FieldInfo) :
    stk002.condition fi = (fi.base_type == "Date".toList) := rfl

theorem stk002_assertion (fi : FieldInfo) :
    stk002.assertion fi = .ok (pyEndswith fi.name ("_date".toList)) := rfl

theorem stk003_condition (fi : FieldInfo) :
    stk003.condition fi = (fi.name == "type".toList) := rfl

theorem stk003_assertion (fi : FieldInfo) :
    stk003.assertion fi = .ok (fi.full_type == "sqlalchemy.Enum".toList) := rfl

theorem stk004_condition (fi : FieldInfo) :
    stk004.condition fi
      = (fi.name == "id".toList || pyEndswith fi.name ("_id".toList)
          || pyStartswith fi.name ("id_".toList)) := rfl

theorem stk004_assertion (fi : FieldInfo) :
    stk004.assertion fi = .ok (fi.full_type == "sqlalchemy.UUID".toList) := rfl

theorem stk005_condition (fi : FieldInfo) :
    stk005.condition fi = (fi.base_type == "bool".toList) := rfl

theorem stk005_assertion (fi : FieldInfo) :
    stk005.assertion fi = .error .attributeError := rfl

theorem pyStartswith_nil (s : PyStr) : pyStartswith s [] = true := by
  cases s <;> rfl

theorem pyStartswith_append (pre : PyStr) :
    ∀ (a rest : PyStr), pre.length ≤ a.length →
      pyStartswith (a ++ rest) pre = pyStartswith a pre := by
  induction pre with
  | nil => intro a rest _; rw [pyStartswith_nil, pyStartswith_nil]
  | cons p ps ih =>
    intro a rest h
    cases a with
    | nil => simp at h
    | cons c cs =>
      simp only [List.cons_append, pyStartswith, List.append_eq]
      rw [ih cs rest (by simpa using h)]

theorem hasCode_mkDiag (code : PyStr) (l c : Nat) (r : Rule) (fi : FieldInfo)
    (h : code.length ≤ r.error_code.length) :
    hasCode code (mkDiag l c r fi) = pyStartswith r.error_code code := by
  unfold hasCode mkDiag
  simp only [List.append_assoc]
  exact pyStartswith_append code _ _ h

/-! ### Structure of the inner rule loop -/

theorem evalRulesAux_pos (l c : Nat) (fi : FieldInfo) :
    ∀ (rs : List Rule) (d : Diag), d ∈ (evalRulesAux l c fi rs).1 →
      d.line = l ∧ d.col = c := by
  intro rs
  induction rs with
  | nil => intro d hd; simp [evalRulesAux] at hd
  | cons r rs ih =>
    intro d hd
    simp only [evalRulesAux] at hd
    split at hd
    · split at hd
      · simp at hd
      · split at hd
        · exact ih d hd
        · simp only [List.mem_cons] at hd
          rcases hd with h | h
          · subst h; exact ⟨rfl, rfl⟩
          · exact ih d h
    · exact ih d hd

theorem evalRulesAux_mem (l c : Nat) (fi : FieldInfo) :
    ∀ (rs : List Rule) (d : Diag), d ∈ (evalRulesAux l c fi rs).1 →
      ∃ r ∈ rs, r.condition fi = true ∧ r.assertion fi = .ok false
        ∧ d = mkDiag l c r fi := by
  intro rs
  induction rs with
  | nil => intro d hd; simp [evalRulesAux] at hd
  | cons r rs ih =>
    intro d hd
    simp only [evalRulesAux] at hd
    split at hd
    case isTrue hc =>
      split at hd
      · simp at hd
      case h_2 b ha =>
        split at hd
        · obtain ⟨r', hr', h1, h2, h3⟩ := ih d hd
          exact ⟨r', List.mem_cons_of_mem r hr', h1, h2, h3⟩
        case isFalse hb =>
          simp only [List.mem_cons] at hd
          rcases hd with h | h
          · subst h
            exact ⟨r, List.mem_cons_self r rs, hc,
              by rw [ha, Bool.eq_false_iff.mpr hb], rfl⟩
          · obtain ⟨r', hr', h1, h2, h3⟩ := ih d h
            exact ⟨r', List.mem_cons_of_mem r hr', h1, h2, h3⟩
    case isFalse hc =>
      obtain ⟨r', hr', h1, h2, h3⟩ := ih d hd
      exact ⟨r', List.mem_cons_of_mem r hr', h1, h2, h3⟩

theorem evalRulesAux_cons_skip (l c : Nat) (fi : FieldInfo) (r : Rule) (rs : List Rule)
    (h : r.condition fi = false) :
    evalRulesAux l c fi (r :: rs) = evalRulesAux l c fi rs := by
  simp [evalRulesAux, h]

theorem evalRulesAux_cons_pass (l c : Nat) (fi : FieldInfo) (r : Rule) (rs : List Rule)
    (hc : r.condition fi = true) (ha : r.assertion fi = .ok true) :
    evalRulesAux l c fi (r :: rs) = evalRulesAux l c fi rs := by
  simp [evalRulesAux, hc, ha]

theorem evalRulesAux_cons_fire (l c : Nat) (fi : FieldInfo) (r : Rule) (rs : List Rule)
    (hc : r.condition fi = true) (ha : r.assertion fi = .ok false) :
    evalRulesAux l c fi (r :: rs)
      = (mkDiag l c r fi :: (evalRulesAux l c fi rs).1, (evalRulesAux l c fi rs).2) := by
  simp [evalRulesAux, hc, ha]

theorem evalRulesAux_cons_raise (l c : Nat) (fi : FieldInfo) (r : Rule) (rs : List Rule)
    (e : PyErr) (hc : r.condition fi = true) (ha : r.assertion fi = .error e) :
    evalRulesAux l c fi (r :: rs) = ([], some e) := by
  simp [evalRulesAux, hc, ha]

theorem evalRulesAux_snd_cons (l c : Nat) (fi : FieldInfo) (r : Rule) (rs : List Rule)
    (b : Bool) (ha : r.assertion fi = .ok b) :
    (evalRulesAux l c fi (r :: rs)).2 = (evalRulesAux l c fi rs).2 := by
  cases hc : r.condition fi
  · rw [evalRulesAux_cons_skip l c fi r rs hc]
  · cases b
    · rw [evalRulesAux_cons_fire l c fi r rs hc ha]
    · rw [evalRulesAux_cons_pass l c fi r rs hc ha]

theorem rules_cases (r : Rule) (hr : r ∈ rules) :
    r = stk001 ∨ r = stk002 ∨ r = stk003 ∨ r = stk004 ∨ r = stk005 := by
  simpa [rules] using hr

/-- C1 (amended): for every field whose `base_type` is `"bool"`, the STK005
rule's condition holds but evaluating its assertion raises `AttributeError`
(the source calls the nonexistent string method `startwith`): the registry
evaluation for that field ends in the exception, and no STK005 diagnostic is
ever among the tuples it yields. -/
theorem stk005_assertion_raises (fi : FieldInfo) (l c : Nat)
    (h : fi.base_type = "bool".toList) :
    (evalRules fi l c).2 = some PyErr.attributeError
      ∧ ∀ d ∈ (evalRules fi l c).1, hasCode ("STK005".toList) d = false := by
  constructor
  · have hc5 : stk005.condition fi = true := by rw [stk005_condition, h]; decide
    unfold evalRules rules
    rw [evalRulesAux_snd_cons l c fi stk001 _ _ (stk001_assertion fi)]
    rw [evalRulesAux_snd_cons l c fi stk002 _ _ (stk002_assertion fi)]
    rw [evalRulesAux_snd_cons l c fi stk003 _ _ (stk003_assertion fi)]
    rw [evalRulesAux_snd_cons l c fi stk004 _ _ (stk004_assertion fi)]
    rw [evalRulesAux_cons_raise l c fi stk005 [] PyErr.attributeError hc5
      (stk005_assertion fi)]
  · intro d hd
    obtain ⟨r, hr, hcond, hass, hde⟩ := evalRulesAux_mem l c fi rules d hd
    rcases rules_cases r hr with rfl | rfl | rfl | rfl | rfl
    · subst hde; rw [hasCode_mkDiag _ _ _ _ _ (by decide)]; decide
    · subst hde; rw [hasCode_mkDiag _ _ _ _ _ (by decide)]; decide
    · subst hde; rw [hasCode_mkDiag _ _ _ _ _ (by decide)]; decide
    · subst hde; rw [hasCode_mkDiag _ _ _ _ _ (by decide)]; decide
    · rw [stk005_assertion] at hass; exact absurd hass (by simp)

/-- C7: a field whose resolved `base_type` is `"DateTime"` triggers exactly
one STK001 diagnostic, at the declaration's own position, when its name ends
in neither `_at` nor `_dt`; and none when the name has one of those
suffixes. -/
theorem stk001_exactly_once (fi : FieldInfo) (l c : Nat)
    (hbt : fi.base_type = "DateTime".toList) :
    (pyEndswith fi.name ("_at".toList) = false →
      pyEndswith fi.name ("_dt".toList) = false →
      (evalRules fi l c).1.countP (hasCode ("STK001".toList)) = 1
        ∧ ∀ d ∈ (evalRules fi l c).1, d.line = l ∧ d.col = c)
    ∧ ((pyEndswith fi.name ("_at".toList) = true
          ∨ pyEndswith fi.name ("_dt".toList) = true) →
        (evalRules fi l c).1.countP (hasCode ("STK001".toList)) = 0) := by
  constructor
  · intro hat hdt
    have hc1 : stk001.condition fi = true := by rw [stk001_condition, hbt]; decide
    have ha1 : stk001.assertion fi = .ok false := by
      rw [stk001_assertion, hat, hdt]; rfl
    refine ⟨?_, fun d hd => evalRulesAux_pos l c fi rules d hd⟩
    unfold evalRules rules
    rw [evalRulesAux_cons_fire l c fi stk001 [stk002, stk003, stk004, stk005] hc1 ha1]
    dsimp only
    rw [List.countP_cons_of_pos _ _ (by rw [hasCode_mkDiag _ _ _ _ _ (by decide)]; decide)]
    have hzero : (evalRulesAux l c fi [stk002, stk003, stk004, stk005]).1.countP
        (hasCode ("STK001".toList)) = 0 := by
      apply List.countP_eq_zero.mpr
      intro d hd
      obtain ⟨r, hr, hcond, hass, hde⟩ := evalRulesAux_mem l c fi _ d hd
      simp only [List.mem_cons, List.not_mem_nil, or_false] at hr
      rcases hr with rfl | rfl | rfl | rfl
      · rw [stk002_condition, hbt] at hcond; exact absurd hcond (by decide)
      · subst hde; rw [hasCode_mkDiag _ _ _ _ _ (by decide)]; decide
      · subst hde; rw [hasCode_mkDiag _ _ _ _ _ (by decide)]; decide
      · rw [stk005_assertion] at hass; exact absurd hass (by simp)
    rw [hzero]
  · intro hor
    apply List.countP_eq_zero.mpr
    intro d hd
    obtain ⟨r, hr, hcond, hass, hde⟩ := evalRulesAux_mem l c fi rules d hd
    rcases rules_cases r hr with rfl | rfl | rfl | rfl | rfl
    · rw [stk001_assertion] at hass
      have hass' : (pyEndswith fi.name ("_at".toList)
          || pyEndswith fi.name ("_dt".toList)) = false := by
        simpa using hass
      rcases hor with h | h <;> rw [h] at hass' <;> simp at hass'
    · rw [stk002_condition, hbt] at hcond; exact absurd hcond (by decide)
    · subst hde; rw [hasCode_mkDiag _ _ _ _ _ (by decide)]; decide
    · subst hde; rw [hasCode_mkDiag _ _ _ _ _ (by decide)]; decide
    · rw [stk005_assertion] at hass; exact absurd hass (by simp)

/-! ### Structure of the outer loops -/

theorem seqOut_neutral (b : RunOut) : seqOut ([], [], none) b = b := by
  rcases b with ⟨f, d, e⟩; simp [seqOut]

theorem seqOut_assoc (a b x : RunOut) :
    seqOut (seqOut a b) x = seqOut a (seqOut b x) := by
  rcases a with ⟨fa, da, ea⟩
  rcases b with ⟨fb, db, eb⟩
  cases ea <;> cases eb <;> simp [seqOut, List.append_assoc]

theorem runNodes_append (a b : List Node) :
    runNodes (a ++ b) = seqOut (runNodes a) (runNodes b) := by
  induction a with
  | nil => simp [runNodes, seqOut_neutral]
  | cons n ns ih =>
    simp only [List.cons_append, runNodes, List.append_eq, ih, seqOut_assoc]

theorem seqOut_diag_mem (a b : RunOut) (d : Diag) (hd : d ∈ (seqOut a b).2.1) :
    d ∈ a.2.1 ∨ d ∈ b.2.1 := by
  rcases a with ⟨fa, da, ea⟩
  cases ea with
  | none => simpa [seqOut] using hd
  | some e => exact Or.inl (by simpa [seqOut] using hd)

theorem seqOut_err_none (a b : RunOut) (h : (seqOut a b).2.2 = none) :
    a.2.2 = none ∧ b.2.2 = none := by
  rcases a with ⟨fa, da, ea⟩
  cases ea with
  | none => exact ⟨rfl, h⟩
  | some e => exact Option.noConfusion h

theorem processTarget_pos (ct : Node) (l c : Nat) (t : Node) (d : Diag)
    (hd : d ∈ (processTarget ct l c t).2.1) : d.line = l ∧ d.col = c := by
  cases t
  case Name id =>
    simp only [processTarget] at hd
    split at hd
    · simp at hd
    · exact evalRulesAux_pos l c _ rules d (by simpa using hd)
  all_goals simp [processTarget] at hd

theorem processTargets_pos (ct : Node) (l c : Nat) :
    ∀ (ts : List Node) (d : Diag), d ∈ (processTargets ct l c ts).2.1 →
      d.line = l ∧ d.col = c := by
  intro ts
  induction ts with
  | nil => intro d hd; simp [processTargets] at hd
  | cons t ts ih =>
    intro d hd
    rcases seqOut_diag_mem _ _ d hd with h | h
    · exact processTarget_pos ct l c t d h
    · exact ih d h

theorem processNode_diag (n : Node) (d : Diag) (hd : d ∈ (processNode n).2.1) :
    ∃ targets value l c, n = .Assign targets value l c ∧ d.line = l ∧ d.col = c := by
  cases n
  case Assign targets value l c =>
    refine ⟨targets, value, l, c, rfl, ?_⟩
    cases value
    case Call f args kws =>
      cases args with
      | nil => simp [processNode] at hd
      | cons a as =>
        simp only [processNode] at hd
        exact processTargets_pos a l c targets d hd
    all_goals simp [processNode] at hd
  all_goals simp [processNode] at hd

theorem runNodes_diag_pos :
    ∀ (ns : List Node) (d : Diag), d ∈ (runNodes ns).2.1 →
      ∃ targets value l c, Node.Assign targets value l c ∈ ns
        ∧ d.line = l ∧ d.col = c := by
  intro ns
  induction ns with
  | nil => intro d hd; simp [runNodes] at hd
  | cons n ns ih =>
    intro d hd
    rcases seqOut_diag_mem _ _ d hd with h | h
    · obtain ⟨targets, value, l, c, rfl, h1, h2⟩ := processNode_diag n d h
      exact ⟨targets, value, l, c, List.mem_cons_self _ _, h1, h2⟩
    · obtain ⟨targets, value, l, c, hm, h1, h2⟩ := ih d h
      exact ⟨targets, value, l, c, List.mem_cons_of_mem _ hm, h1, h2⟩

/-- C4 (amended): every tuple the generator yields takes both its position
components unchanged from the assignment statement that triggered it —
`node.lineno` (which the parser assigns 1-based) and `node.col_offset`
(which the parser assigns 0-based).  The column is therefore a 0-based
offset, not a 1-based column number. -/
theorem diag_position_from_assign (t : Node) (d : Diag)
    (hd : d ∈ (analyze t).2.1) :
    ∃ targets value l c, Node.Assign targets value l c ∈ walk t
      ∧ d.line = l ∧ d.col = c :=
  runNodes_diag_pos (walk t) d hd

theorem get_base_type_name_error (n : Node) (e : PyErr)
    (h : get_full_name n = .error e) : get_base_type_name n = .error e := by
  simp [get_base_type_name, h]

theorem mkFieldInfo_error (name : PyStr) (ct : Node) (e : PyErr)
    (h : get_full_name ct = .error e) : mkFieldInfo name ct = .error e := by
  simp [mkFieldInfo, get_base_type_name_error ct e h]

/-- C2 (amended): when resolving a candidate's type expression fails, the
`ValueError` is not recovered: `run` has no handler, so the candidate
produces no diagnostic, the exception escapes the generator, and the
declarations that `ast.walk` would have visited afterwards are never
processed. -/
theorem resolution_error_propagates (ns1 ns2 targets : List Node) (id : PyStr)
    (func bad : Node) (args kws : List Node) (l c : Nat) (e : PyErr)
    (hbad : get_full_name bad = .error e)
    (hok : (runNodes ns1).2.2 = none) :
    runNodes (ns1 ++ (Node.Assign (Node.Name id :: targets)
        (Node.Call func (bad :: args) kws) l c) :: ns2)
      = ((runNodes ns1).1, (runNodes ns1).2.1, some e) := by
  have hassign : processNode (Node.Assign (Node.Name id :: targets)
      (Node.Call func (bad :: args) kws) l c) = ([], [], some e) := by
    simp [processNode, processTargets, processTarget,
      mkFieldInfo_error id bad e hbad, seqOut]
  rw [runNodes_append]
  have h2 : runNodes ((Node.Assign (Node.Name id :: targets)
      (Node.Call func (bad :: args) kws) l c) :: ns2) = ([], [], some e) := by
    simp [runNodes, hassign, seqOut]
  rw [h2]
  rcases hq : runNodes ns1 with ⟨f1, d1, e1⟩
  rw [hq] at hok
  simp only at hok
  subst hok
  simp [seqOut]

theorem processTarget_skip (ct : Node) (l c : Nat) (t : Node)
    (h : isNameNode t = false) : processTarget ct l c t = ([], [], none) := by
  cases t <;> first
    | rfl
    | simp [isNameNode] at h

theorem processTargets_cons_skip (ct : Node) (l c : Nat) (t : Node) (ts : List Node)
    (h : isNameNode t = false) :
    processTargets ct l c (t :: ts) = processTargets ct l c ts := by
  simp only [processTargets, processTarget_skip ct l c t h, seqOut_neutral]

theorem processTargets_no_name (ct : Node) (l c : Nat) :
    ∀ (ts : List Node), (∀ t ∈ ts, isNameNode t = false) →
      processTargets ct l c ts = ([], [], none) := by
  intro ts
  induction ts with
  | nil => intro _; rfl
  | cons t ts ih =>
    intro h
    rw [processTargets_cons_skip ct l c t ts (h t (List.mem_cons_self t ts))]
    exact ih fun x hx => h x (List.mem_cons_of_mem t hx)

theorem mkFieldInfo_ok (name : PyStr) (ct : Node) (bt ft : PyStr)
    (h1 : get_base_type_name ct = .ok bt) (h2 : get_full_name ct = .ok ft) :
    mkFieldInfo name ct = .ok ⟨name, ct, bt, ft⟩ := by
  simp [mkFieldInfo, h1, h2]

/-- C9: an assignment whose right-hand side is a call with an empty `args`
list (however many keyword arguments it has) is skipped by the
`if not node.value.args: continue` test: it contributes no field and no
diagnostic and raises nothing. -/
theorem zero_positional_args_skipped (targets : List Node) (func : Node)
    (kws : List Node) (l c : Nat) :
    processNode (.Assign targets (.Call func [] kws) l c) = ([], [], none) := rfl

theorem evalRules_snd_none (fi : FieldInfo) (l c : Nat)
    (h : fi.base_type ≠ "bool".toList) : (evalRules fi l c).2 = none := by
  unfold evalRules rules
  rw [evalRulesAux_snd_cons l c fi stk001 _ _ (stk001_assertion fi),
    evalRulesAux_snd_cons l c fi stk002 _ _ (stk002_assertion fi),
    evalRulesAux_snd_cons l c fi stk003 _ _ (stk003_assertion fi),
    evalRulesAux_snd_cons l c fi stk004 _ _ (stk004_assertion fi),
    evalRulesAux_cons_skip l c fi stk005 []
      (by rw [stk005_condition]; exact beq_eq_false_iff_ne.mpr h)]
  rfl

/-- C5 (amended): candidate selection as the code implements it.
(a) A node contributes anything to the run — field descriptors, diagnostics
or an exception — only if it is an assignment (with any number of targets,
not only single-target) whose right-hand side is a call with at least one
positional argument and which has at least one simple-name target.
(b) A tuple/attribute/subscript (or any non-`Name`) target is silently
skipped: dropping it from the target list changes nothing — no field, no
diagnostic, no exception.
(c) When the call's first positional argument resolves and its base name is
not `"bool"` (the one base name whose rule assertion raises), the target
loop builds exactly one field descriptor per simple-name target, in target
order, and raises nothing.
(d) When resolution of the first positional argument fails, the first
simple-name target raises that error and no field descriptor is built. -/
theorem candidate_selection :
    (∀ n : Node, processNode n ≠ (([] : List FieldInfo), ([] : List Diag),
        (none : Option PyErr)) →
      ∃ targets func a args kws l c,
        n = .Assign targets (.Call func (a :: args) kws) l c
          ∧ ∃ t ∈ targets, isNameNode t = true)
    ∧ (∀ (ct : Node) (l c : Nat) (t : Node) (ts : List Node),
        isNameNode t = false →
        processTargets ct l c (t :: ts) = processTargets ct l c ts)
    ∧ (∀ (ct : Node) (l c : Nat) (ts : List Node) (bt ft : PyStr),
        get_base_type_name ct = .ok bt → get_full_name ct = .ok ft →
        bt ≠ "bool".toList →
        (processTargets ct l c ts).1 = ts.filterMap (nameField ct bt ft)
          ∧ (processTargets ct l c ts).2.2 = none)
    ∧ (∀ (ct : Node) (l c : Nat) (id : PyStr) (ts : List Node) (e : PyErr),
        get_full_name ct = .error e →
        processTargets ct l c (.Name id :: ts) = ([], [], some e)) := by
  refine ⟨?_, processTargets_cons_skip, ?_, ?_⟩
  · intro n hne
    cases n
    case Assign targets value l c =>
      cases value
      case Call func args kws =>
        cases args with
        | nil => exact absurd rfl hne
        | cons a as =>
          refine ⟨targets, func, a, as, kws, l, c, rfl, ?_⟩
          by_contra hall
          push_neg at hall
          exact hne (by
            simp only [processNode]
            exact processTargets_no_name a l c targets fun t ht =>
              Bool.eq_false_iff.mpr (hall t ht))
      all_goals exact absurd rfl hne
    all_goals exact absurd rfl hne
  · intro ct l c ts bt ft h1 h2 h3
    induction ts with
    | nil => exact ⟨rfl, rfl⟩
    | cons t ts ih =>
      obtain ⟨hf, he⟩ := ih
      cases ht : isNameNode t with
      | false =>
        rw [processTargets_cons_skip ct l c t ts ht]
        refine ⟨?_, he⟩
        rw [hf]
        cases t
        case Name id => simp [isNameNode] at ht
        all_goals simp [List.filterMap_cons, nameField]
      | true =>
        cases t
        case Name id =>
          have hfi := mkFieldInfo_ok id ct bt ft h1 h2
          have herr : (evalRules ⟨id, ct, bt, ft⟩ l c).2 = none :=
            evalRules_snd_none _ l c (by simpa using h3)
          simp only [processTargets, processTarget, hfi]
          rcases hres : evalRules ⟨id, ct, bt, ft⟩ l c with ⟨ds, e2⟩
          rw [hres] at herr
          simp only at herr
          subst herr
          simp only [seqOut]
          exact ⟨by simp [List.filterMap_cons, nameField, hf], he⟩
        all_goals simp [isNameNode] at ht
  · intro ct l c id ts e he
    simp [processTargets, processTarget, mkFieldInfo_error id ct e he, seqOut]

/-- C10 (amended): an assignment with several targets, whose call's first
positional argument resolves and does not resolve to base name `"bool"`
(the one base name whose rule evaluation raises), contributes one field per
simple-name target, in target order; its diagnostics are the per-target
registry evaluations concatenated in that same order; every one of those
diagnostics carries the `lineno`/`col_offset` of the enclosing assignment
statement; and nothing is raised. -/
theorem multi_target_assignment (targets : List Node) (func a : Node)
    (args kws : List Node) (l c : Nat) (bt ft : PyStr)
    (h1 : get_base_type_name a = .ok bt) (h2 : get_full_name a = .ok ft)
    (h3 : bt ≠ "bool".toList) :
    processNode (.Assign targets (.Call func (a :: args) kws) l c)
        = (targets.filterMap (nameField a bt ft),
           targets.flatMap (fun t =>
             match nameField a bt ft t with
             | some fi => (evalRules fi l c).1
             | none => []),
           none)
      ∧ ∀ d ∈ (processNode (.Assign targets (.Call func (a :: args) kws) l c)).2.1,
          d.line = l ∧ d.col = c := by
  refine ⟨?_, fun d hd => by
    simp only [processNode] at hd
    exact processTargets_pos a l c targets d hd⟩
  simp only [processNode]
  induction targets with
  | nil => rfl
  | cons t ts ih =>
    cases ht : isNameNode t with
    | false =>
      rw [processTargets_cons_skip a l c t ts ht, ih]
      cases t
      case Name id => simp [isNameNode] at ht
      all_goals simp [nameField]
    | true =>
      cases t <;> simp [isNameNode] at ht
      case Name id =>
        have hfi := mkFieldInfo_ok id a bt ft h1 h2
        have herr : (evalRules ⟨id, a, bt, ft⟩ l c).2 = none :=
          evalRules_snd_none _ l c (by simpa using h3)
        simp only [processTargets, processTarget, hfi, ih, nameField]
        rcases hres : evalRules ⟨id, a, bt, ft⟩ l c with ⟨ds, e⟩
        rw [hres] at herr
        simp only at herr
        subst herr
        simp [seqOut, List.filterMap_cons, List.flatMap_cons, nameField, hres]

theorem evalRulesAux_filter (l c : Nat) (fi : FieldInfo) :
    ∀ rs : List Rule, (evalRulesAux l c fi rs).2 = none →
      (evalRulesAux l c fi rs).1
        = (rs.filter (fun r => ruleFires r fi)).map (fun r => mkDiag l c r fi) := by
  intro rs
  induction rs with
  | nil => intro _; rfl
  | cons r rs ih =>
    intro hn
    cases hc : r.condition fi with
    | false =>
      rw [evalRulesAux_cons_skip l c fi r rs hc] at hn ⊢
      rw [ih hn]
      have hf : ruleFires r fi = false := by simp [ruleFires, hc]
      simp [List.filter_cons, hf]
    | true =>
      cases ha : r.assertion fi with
      | error e =>
        rw [evalRulesAux_cons_raise l c fi r rs e hc ha] at hn
        exact Option.noConfusion hn
      | ok b =>
        cases b with
        | true =>
          rw [evalRulesAux_cons_pass l c fi r rs hc ha] at hn ⊢
          rw [ih hn]
          have hf : ruleFires r fi = false := by simp [ruleFires, hc, ha]
          simp [List.filter_cons, hf]
        | false =>
          rw [evalRulesAux_cons_fire l c fi r rs hc ha] at hn ⊢
          dsimp only at hn ⊢
          rw [ih hn]
          have hf : ruleFires r fi = true := by simp [ruleFires, hc, ha]
          simp [List.filter_cons, hf]

theorem processTargets_emit (ct : Node) (l c : Nat) :
    ∀ ts : List Node, (processTargets ct l c ts).2.2 = none →
      (processTargets ct l c ts).2.1 = ts.flatMap (specEmitTarget ct l c) := by
  intro ts
  induction ts with
  | nil => intro _; rfl
  | cons t ts ih =>
    intro hn
    cases ht : isNameNode t with
    | false =>
      rw [processTargets_cons_skip ct l c t ts ht] at hn ⊢
      rw [ih hn, List.flatMap_cons]
      have he : specEmitTarget ct l c t = [] := by
        cases t
        case Name id => simp [isNameNode] at ht
        all_goals rfl
      rw [he, List.nil_append]
    | true =>
      cases t
      case Name id =>
        have hn' : (seqOut (processTarget ct l c (.Name id))
            (processTargets ct l c ts)).2.2 = none := hn
        obtain ⟨h1, h2⟩ := seqOut_err_none _ _ hn'
        rcases hfi : mkFieldInfo id ct with e | fi
        · exfalso
          have hpt : (processTarget ct l c (.Name id)).2.2 = some e := by
            simp [processTarget, hfi]
          rw [hpt] at h1
          exact Option.noConfusion h1
        · have hpt : processTarget ct l c (.Name id)
              = ([fi], (evalRules fi l c).1, (evalRules fi l c).2) := by
            simp [processTarget, hfi]
          have hev2 : (evalRules fi l c).2 = none := by
            have := h1; rw [hpt] at this; exact this
          show (seqOut (processTarget ct l c (.Name id))
            (processTargets ct l c ts)).2.1 = _
          rw [hpt]
          rcases hev : evalRules fi l c with ⟨ds, e2⟩
          rw [hev] at hev2
          simp only at hev2
          subst hev2
          simp only [seqOut]
          rw [ih h2, List.flatMap_cons]
          have hds : ds = (rules.filter (fun r => ruleFires r fi)).map
              (fun r => mkDiag l c r fi) := by
            have hf := evalRulesAux_filter l c fi rules
              (by rw [show evalRulesAux l c fi rules = evalRules fi l c from rfl, hev])
            rw [show evalRulesAux l c fi rules = evalRules fi l c from rfl, hev] at hf
            exact hf
          rw [hds]
          simp [specEmitTarget, hfi]
      all_goals simp [isNameNode] at ht

theorem processNode_emit (n : Node) (hn : (processNode n).2.2 = none) :
    (processNode n).2.1 = specEmitNode n := by
  cases n
  case Assign targets value l c =>
    cases value
    case Call f args kws =>
      cases args with
      | nil => rfl
      | cons a as =>
        simp only [processNode, specEmitNode] at hn ⊢
        exact processTargets_emit a l c targets hn
    all_goals rfl
  all_goals rfl

theorem runNodes_emit : ∀ ns : List Node, (runNodes ns).2.2 = none →
    (runNodes ns).2.1 = ns.flatMap specEmitNode := by
  intro ns
  induction ns with
  | nil => intro _; rfl
  | cons n ns ih =>
    intro hn
    obtain ⟨h1, h2⟩ := seqOut_err_none (processNode n) (runNodes ns) hn
    show (seqOut (processNode n) (runNodes ns)).2.1 = _
    have hpe := processNode_emit n h1
    rcases hp : processNode n with ⟨fs, ds, e⟩
    rw [hp] at h1
    simp only at h1
    subst h1
    rw [hp] at hpe
    simp only at hpe
    simp only [seqOut]
    rw [ih h2, List.flatMap_cons, hpe]

/-- C3 (amended): the extractor visits candidates in the breadth-first
order of `ast.walk` — not depth-first document order — and on a run that
raises nothing the yielded tuples are exactly that order flattened:
declarations in `walk` (BFS) order, and within one declaration, targets in
target order and rules in the registry's registration order. -/
theorem emit_order_bfs (t : Node) (hn : (analyze t).2.2 = none) :
    (analyze t).2.1 = specEmit t :=
  runNodes_emit (walk t) hn

theorem splitDot_no_dot : ∀ s : PyStr, s.contains '.' = false → splitDot s = [s] := by
  intro s
  induction s with
  | nil => intro _; rfl
  | cons c cs ih =>
    intro h
    rw [List.contains_cons, Bool.or_eq_false_iff] at h
    obtain ⟨h1, h2⟩ := h
    have hc : ¬ c = '.' := Ne.symm (by simpa using h1)
    simp only [splitDot, if_neg hc, ih h2]

theorem splitDot_append_dot : ∀ (a b : PyStr),
    splitDot (a ++ '.' :: b) = splitDot a ++ splitDot b := by
  intro a b
  induction a with
  | nil => simp [splitDot]
  | cons c cs ih =>
    by_cases hc : c = '.'
    · subst hc; simp [splitDot, ih]
    · rw [List.cons_append]
      simp only [splitDot, if_neg hc]
      rcases hsc : splitDot cs with _ | ⟨s, rest⟩
      · exact absurd hsc (splitDot_ne_nil cs)
      · have h3 : splitDot (cs ++ '.' :: b) = s :: (rest ++ splitDot b) := by
          rw [ih, hsc]; rfl
        rw [h3]
        simp

theorem full_name_segments :
    (n : Node) → wfNames n = true → ∀ s, get_full_name n = .ok s →
      ∀ seg ∈ splitDot s, seg ≠ []
  | .Name id => by
    intro hwf s hs seg hseg
    simp only [get_full_name, Except.ok.injEq] at hs
    subst hs
    simp only [wfNames, wfIdent, Bool.and_eq_true] at hwf
    obtain ⟨h1, h2⟩ := hwf
    rw [splitDot_no_dot id (by simpa using h2)] at hseg
    simp only [List.mem_singleton] at hseg
    subst hseg
    simpa using h1
  | .Attribute v attr => by
    intro hwf s hs seg hseg
    simp only [wfNames, Bool.and_eq_true] at hwf
    obtain ⟨hv, hattr⟩ := hwf
    simp only [get_full_name] at hs
    rcases hgv : get_full_name v with e | value
    · rw [hgv] at hs; exact Except.noConfusion hs
    · rw [hgv] at hs
      simp only [Except.ok.injEq] at hs
      have ih := full_name_segments v hv value hgv
      have hvne : value ≠ [] := by
        intro h0
        subst h0
        exact (ih [] (by simp [splitDot])) rfl
      rw [if_neg hvne] at hs
      subst hs
      rw [splitDot_append_dot value attr] at hseg
      simp only [wfIdent, Bool.and_eq_true] at hattr
      rw [splitDot_no_dot attr (by simpa using hattr.2)] at hseg
      rcases List.mem_append.mp hseg with h | h
      · exact ih seg h
      · simp only [List.mem_singleton] at h
        subst h
        simpa using hattr.1
  | .Call f args kws => by
    intro hwf s hs seg hseg
    exact full_name_segments f (by simpa [wfNames] using hwf) s hs seg hseg
  | .Module body => by
    intro _ s hs; exact Except.noConfusion hs
  | .ClassDef bases kws body decs => by
    intro _ s hs; exact Except.noConfusion hs
  | .Assign targets value l c => by
    intro _ s hs; exact Except.noConfusion hs
  | .Keyword v => by
    intro _ s hs; exact Except.noConfusion hs
  | .Constant => by
    intro _ s hs; exact Except.noConfusion hs
  | .TupleNode elts => by
    intro _ s hs; exact Except.noConfusion hs
  | .Subscript v sl => by
    intro _ s hs; exact Except.noConfusion hs

/-- C6: the resolver's contract.  An identifier resolves to its own name;
an attribute access resolves to `resolve(base) + "." + attribute`, or to
the bare attribute when the base resolves to the empty string; a call
resolves to its callee with the arguments ignored; and — whenever the
identifiers involved are parser-well-formed — the base name
(`get_base_type_name`) is the last non-empty dot-separated segment of the
qualified name. -/
theorem resolver_spec :
    (∀ id : PyStr, get_full_name (Node.Name id) = .ok id)
    ∧ (∀ (v : Node) (attr s : PyStr), get_full_name v = .ok s →
        get_full_name (Node.Attribute v attr)
          = .ok (if s = [] then attr else s ++ '.' :: attr))
    ∧ (∀ (f : Node) (args kws : List Node),
        get_full_name (Node.Call f args kws) = get_full_name f)
    ∧ (∀ (n : Node) (s : PyStr), wfNames n = true → get_full_name n = .ok s →
        get_base_type_name n = .ok (lastNonEmptySegment s)) := by
  refine ⟨fun id => rfl, ?_, fun f args kws => rfl, ?_⟩
  · intro v attr s hs
    simp [get_full_name, hs]
  · intro n s hwf hs
    have hsegs := full_name_segments n hwf s hs
    simp only [get_base_type_name, hs]
    congr 1
    unfold lastNonEmptySegment
    rw [List.filter_eq_self.mpr (fun seg hseg => by simpa using hsegs seg hseg)]

/-- C8: the analysis is a pure function of the syntax tree: the plugin's
only instance state is the tree and the filename stored by `__init__`, the
rule table is a fixed constant, and nothing is mutated, so two runs over
plugins holding the same (unchanged) tree — in particular two runs of the
same plugin, or runs under different filenames — yield the same tuple
sequence, element for element and in the same order. -/
theorem run_reproducible (p q : Plugin) (h : p.tree = q.tree) :
    p.run = q.run := by
  unfold Plugin.run
  rw [h]

/-! ### Counterexamples and witnesses -/

/-- C1 counterexample: on the boolean field `flag = Column(bool)` the run
yields no STK005 tuple at all — the claim demands exactly one — and ends in
`AttributeError` instead. -/
theorem stk005_not_fired_on_bool_field :
    (analyze exBoolField).2.1.countP (hasCode ("STK005".toList)) = 0
      ∧ (analyze exBoolField).2.2 = some PyErr.attributeError := by decide

/-- C1 witness: the amended statement at the concrete field of
`flag = Column(bool)`. -/
theorem stk005_assertion_raises_witness :
    (evalRules fiFlag 1 0).2 = some PyErr.attributeError :=
  (stk005_assertion_raises fiFlag 1 0 (by decide)).1

/-- C2 counterexample: with `x = Column(123)` before
`created = Column(DateTime())`, the run yields nothing and raises
`ValueError`; the same `created` declaration analysed on its own yields its
STK001 tuple — so the failure was not recovered locally and the later
declaration was never processed. -/
theorem malformed_type_not_recovered :
    (analyze exMalformed).2.1 = []
      ∧ (analyze exMalformed).2.2 = some (PyErr.valueError ("Constant".toList))
      ∧ (analyze exCreated).2.1.length = 1
      ∧ (analyze exCreated).2.2 = none := by decide

/-- C2 witness: the amended statement at the concrete malformed declaration
`x = Column(123)`. -/
theorem resolution_error_propagates_witness :
    runNodes ([] ++ (Node.Assign [Node.Name ("x".toList)]
        (Node.Call (Node.Name ("Column".toList)) [Node.Constant] []) 1 0) :: [])
      = ((runNodes []).1, (runNodes []).2.1,
          some (PyErr.valueError ("Constant".toList))) :=
  resolution_error_propagates [] [] [] ("x".toList) (Node.Name ("Column".toList))
    Node.Constant [] [] 1 0 (PyErr.valueError ("Constant".toList))
    rfl (by decide)

/-- C3 counterexample: on `exNested` the tuples come out for line 3 before
line 2, while document order (depth-first pre-order) lists the line-2
declaration first — the emitted order is not document order. -/
theorem emit_order_not_document_order :
    (analyze exNested).2.1.map Diag.line = [3, 2]
      ∧ assignLines (dfsPre exNested) = [2, 3]
      ∧ (analyze exNested).2.1.map Diag.line ≠ assignLines (dfsPre exNested) := by
  decide

/-- C3 witness: the amended (breadth-first) order statement at `exNested`. -/
theorem emit_order_bfs_witness :
    (analyze exNested).2.1 = specEmit exNested :=
  emit_order_bfs exNested (by decide)

/-- C4 counterexample: the tuple for the top-level declaration
`created = Column(DateTime())` carries column 0 — a 0-based `col_offset`,
which no 1-based column number can be. -/
theorem diag_column_not_one_based :
    (analyze exCreated).2.1.map Diag.col = [0]
      ∧ ¬ (∀ d ∈ (analyze exCreated).2.1, 1 ≤ d.col) := by decide

/-- C4 witness: the amended position statement at the concrete tuple
yielded for `exCreated`. -/
theorem diag_position_from_assign_witness :
    ∃ targets value l c, Node.Assign targets value l c ∈ walk exCreated
      ∧ ((analyze exCreated).2.1.headD ⟨0, 0, [], .pluginClass⟩).line = l
      ∧ ((analyze exCreated).2.1.headD ⟨0, 0, [], .pluginClass⟩).col = c :=
  diag_position_from_assign exCreated _ (by decide)

/-- C5 counterexample: the chained assignment `a = b = Column(DateTime())`
is not a single-target assignment, so under the claim's selection rule it
would yield no field descriptor — yet the run builds two descriptors and
yields two tuples for it. -/
theorem chained_assignment_selected :
    singleNameTargetCall (.Assign [.Name ("a".toList), .Name ("b".toList)]
        (.Call (.Name ("Column".toList))
          [.Call (.Name ("DateTime".toList)) [] []] []) 1 0) = false
      ∧ (analyze exChained).1.map FieldInfo.name = ["a".toList, "b".toList]
      ∧ (analyze exChained).2.1.length = 2 := by decide

/-- C5 witness: the amended statement at concrete targets — the skip
clause at a tuple target, and the one-descriptor-per-`Name`-target clause
on two chained targets over a resolving, non-bool type expression. -/
theorem candidate_selection_witness :
    (processTargets (Node.Name ("DateTime".toList)) 1 0
        [Node.TupleNode [], Node.Name ("a".toList)]
      = processTargets (Node.Name ("DateTime".toList)) 1 0 [Node.Name ("a".toList)])
    ∧ (processTargets (Node.Name ("DateTime".toList)) 1 0
        [Node.Name ("a".toList), Node.Name ("b".toList)]).1
      = [Node.Name ("a".toList), Node.Name ("b".toList)].filterMap
          (nameField (Node.Name ("DateTime".toList)) ("DateTime".toList) ("DateTime".toList)) :=
  ⟨candidate_selection.2.1 (Node.Name ("DateTime".toList)) 1 0 (Node.TupleNode [])
      [Node.Name ("a".toList)] (by decide),
   (candidate_selection.2.2.1 (Node.Name ("DateTime".toList)) 1 0
      [Node.Name ("a".toList), Node.Name ("b".toList)]
      ("DateTime".toList) ("DateTime".toList) rfl rfl (by decide)).1⟩

/-- C6 witness: the resolver's base-name contract at the concrete type
expression `sqlalchemy.DateTime`. -/
theorem resolver_spec_witness :
    get_base_type_name (Node.Attribute (Node.Name ("sqlalchemy".toList)) ("DateTime".toList))
      = .ok (lastNonEmptySegment ("sqlalchemy.DateTime".toList)) :=
  resolver_spec.2.2.2 (Node.Attribute (Node.Name ("sqlalchemy".toList)) ("DateTime".toList))
    ("sqlalchemy.DateTime".toList) (by decide) rfl

/-- C7 witness: the STK001 statement at the concrete field of
`created = Column(DateTime())`. -/
theorem stk001_exactly_once_witness :
    (evalRules fiCreated 1 0).1.countP (hasCode ("STK001".toList)) = 1 :=
  ((stk001_exactly_once fiCreated 1 0 (by decide)).1 (by decide) (by decide)).1

/-- C8 witness: two plugins over the same tree (different filenames)
produce identical output. -/
theorem run_reproducible_witness :
    Plugin.run ⟨exCreated, "a.py".toList⟩ = Plugin.run ⟨exCreated, "b.py".toList⟩ :=
  run_reproducible ⟨exCreated, "a.py".toList⟩ ⟨exCreated, "b.py".toList⟩ rfl

/-- C10 counterexample: on `a = b = Column(bool)` only the first target's
descriptor is ever built — the STK005 assertion raises while evaluating it,
so the second `Name` target is never reached; the claim's "one descriptor
per simple-name target" fails. -/
theorem chained_bool_assignment_partial :
    (analyze exChainedBool).1.map FieldInfo.name = ["a".toList]
      ∧ (analyze exChainedBool).2.2 = some PyErr.attributeError := by decide

/-- C10 witness: the amended multi-target statement at the concrete chained
assignment `a = b = Column(DateTime())`. -/
theorem multi_target_assignment_witness :
    processNode (.Assign [Node.Name ("a".toList), Node.Name ("b".toList)]
        (.Call (.Name ("Column".toList))
          [.Call (.Name ("DateTime".toList)) [] []] []) 1 0)
      = ([Node.Name ("a".toList), Node.Name ("b".toList)].filterMap
          (nameField (.Call (.Name ("DateTime".toList)) [] [])
            ("DateTime".toList) ("DateTime".toList)),
         [Node.Name ("a".toList), Node.Name ("b".toList)].flatMap (fun t =>
           match nameField (.Call (.Name ("DateTime".toList)) [] [])
               ("DateTime".toList) ("DateTime".toList) t with
           | some fi => (evalRules fi 1 0).1
           | none => []),
         none) :=
  (multi_target_assignment [Node.Name ("a".toList), Node.Name ("b".toList)]
    (.Name ("Column".toList)) (.Call (.Name ("DateTime".toList)) [] []) [] [] 1 0
    ("DateTime".toList) ("DateTime".toList) rfl rfl (by decide)).1
